import Mathlib

/-!
Shallow embedding of the resolution and planning engine of
`drummonds/openwrt-configurator` (Go), covering:

* the condition evaluator (`internal/condition`, src/unnamed/part_004),
* the declarative tree / package / reset-scope resolvers
  (`internal/device`, src/unnamed/part_001),
* the UCI command generator (`internal/uci`, src/unnamed/part_003).

Go conventions mapped to Lean:

* Go `map[string]T` values are embedded as association lists
  `List (String × T)`; the list order stands for the iteration order the Go
  runtime happens to choose (Go leaves it unspecified and randomizes it), and
  map content is read through `goLookup`, which matches Go map lookup for
  unique-key lists (keys decoded from JSON objects are unique).
* Go byte-indexed string scanning is embedded as recursion over `List Char`
  (`String.data`); all condition strings exercised by the claims are ASCII.
* a Go `panic` in the condition evaluator is embedded as the `Except` error
  it aborts with; nothing in the repository recovers such a panic.
* `strings.TrimSpace` trims Unicode white space; `trimChars` trims the ASCII
  subset `' '`, `'\t'`, `'\n'`, `'\r'`, which is also exactly the JSON
  white-space set used by `encoding/json`.  The difference (`'\x0b'`,
  `'\x0c'`, non-ASCII spaces) is not exercised by any claim.
-/

/-- ASCII white space as used by the embedded string trimming. -/
def isSpaceChar (c : Char) : Bool :=
  c = ' ' ∨ c = '\t' ∨ c = '\n' ∨ c = '\r'

/-- Embedding of `strings.TrimSpace` (restricted to ASCII white space). -/
def trimChars (l : List Char) : List Char :=
  ((l.dropWhile isSpaceChar).reverse.dropWhile isSpaceChar).reverse

/-- Go map lookup on an association list: first binding wins (keys of
JSON-decoded Go maps are unique, so this matches Go map indexing). -/
def goLookup {α : Type} (k : String) : List (String × α) → Option α
  | [] => none
  | p :: rest => if p.1 = k then some p.2 else goLookup k rest

/-- Go map assignment `m[k] = v`: overwrite the existing binding of `k`, or
append a new one. -/
def mapInsert {α : Type} (m : List (String × α)) (k : String) (v : α) :
    List (String × α) :=
  if m.any (fun p => p.1 = k) then
    m.map (fun p => if p.1 = k then (k, v) else p)
  else m ++ [(k, v)]

/-- Space-joined concatenation, as built by the Go loops
`if i > 0 { pkgList += " " }; pkgList += pkg`. -/
def joinSpace : List String → String
  | [] => ""
  | x :: rest => rest.foldl (fun acc s => acc ++ " " ++ s) x

/-- Embedding of `strings.Split` on a single-character separator (the source
only splits package tokens on `"@"`).  `cur` is the reversed chunk read so
far; `strings.Split("", sep) = [""]` is matched by the `[]` case. -/
def splitOnChar (sep : Char) : List Char → List Char → List (List Char)
  | [], cur => [cur.reverse]
  | c :: rest, cur =>
    if c = sep then cur.reverse :: splitOnChar sep rest []
    else splitOnChar sep rest (c :: cur)

/-- A JSON-decoded Go `interface{}` value (`encoding/json` decodes JSON into
`nil`, `bool`, `float64`, `string`, `[]interface{}` and
`map[string]interface{}`).  A number keeps its JSON lexeme: no claim compares
the Go re-formatting of a decoded `float64`, so the numeric value itself is
never needed. -/
inductive GoVal where
  | null : GoVal
  | bool : Bool → GoVal
  | num : String → GoVal
  | str : String → GoVal
  | arr : List GoVal → GoVal
  | obj : List (String × GoVal) → GoVal

/-- Embedding of `fmt.Sprintf("%v", x)` for the scalar cases the engine
compares (`compareScalar` stringifies its operands).  Go renders composite
values recursively (`[a b]`, `map[k:v]` with sorted keys); no claim compares a
composite value by its string form, so their rendering is abbreviated to a
fixed marker. -/
def goFormatV : GoVal → String
  | .str s => s
  | .bool true => "true"
  | .bool false => "false"
  | .num lit => lit
  | .null => "<nil>"
  | .arr _ => "[go-slice]"
  | .obj _ => "map[go-map]"

/-- One or more JSON digits, returning the unconsumed remainder. -/
def digits1 : List Char → Option (List Char)
  | c :: rest => if c.isDigit then some (rest.dropWhile Char.isDigit) else none
  | [] => none

/-- JSON number integer part: `0` or a nonzero digit followed by digits. -/
def jsonIntPart : List Char → Option (List Char)
  | '0' :: rest => some rest
  | c :: rest => if c.isDigit then some (rest.dropWhile Char.isDigit) else none
  | [] => none

/-- JSON number fraction part (optional). -/
def jsonFracPart : List Char → Option (List Char)
  | '.' :: rest => digits1 rest
  | l => some l

/-- Digits of a JSON exponent, after an optional sign. -/
def jsonExpDigits : List Char → Option (List Char)
  | '+' :: rest => digits1 rest
  | '-' :: rest => digits1 rest
  | l => digits1 l

/-- JSON number exponent part (optional). -/
def jsonExpPart : List Char → Option (List Char)
  | 'e' :: rest => jsonExpDigits rest
  | 'E' :: rest => jsonExpDigits rest
  | l => some l

/-- Whether `l` is a complete JSON number. -/
def isJSONNumber (l : List Char) : Bool :=
  let l₁ := match l with | '-' :: rest => rest | _ => l
  match jsonIntPart l₁ with
  | some r₁ =>
    match jsonFracPart r₁ with
    | some r₂ =>
      match jsonExpPart r₂ with
      | some [] => true
      | _ => false
    | none => false
  | none => false

/-- Whether `l` is a double-quoted JSON string with no escape sequence.
Escapes and control characters are not exercised by any claim and are treated
as parse failures. -/
def isJSONSimpleString (l : List Char) : Bool :=
  match l with
  | '"' :: (_ :: _) =>
    l.getLast? = some '"' ∧
      ((l.drop 1).dropLast.all fun c => c ≠ '"' ∧ c ≠ '\\')
  | _ => false

/-- Modelled from the Go standard library: the scalar fragment of
`json.Unmarshal` into `interface{}`, as used by `parseValue`
(src/unnamed/part_004 lines 177-180).  Surrounding JSON white space is
tolerated; `true`/`false`/`null`, JSON numbers and escape-free JSON strings
are decoded; composite JSON values and escaped strings, which no claim
exercises, are treated as failures. -/
def jsonUnmarshalScalar (l : List Char) : Option GoVal :=
  let u := trimChars l
  if u = "true".data then some (.bool true)
  else if u = "false".data then some (.bool false)
  else if u = "null".data then some .null
  else if isJSONNumber u then some (.num (String.mk u))
  else if isJSONSimpleString u then some (.str (String.mk ((u.drop 1).dropLast)))
  else none

/-- Per-device configuration record (`config.DeviceConfig`,
src/unnamed/part_002); the SSH provisioning fields are I/O-only and omitted.
`Tags` is the JSON-decoded `map[string]any`. -/
structure DeviceConfig where
  Enabled : Option Bool
  ModelID : String
  IPAddr : String
  Hostname : String
  Tags : List (String × GoVal)

/-- Minimal device schema used by condition evaluation
(`condition.DeviceSchema`, src/unnamed/part_004 lines 12-15). -/
structure ConditionDeviceSchema where
  SwConfig : Bool
  Version : String

/-- Context for evaluating conditions (`condition.ConditionContext`,
src/unnamed/part_004 lines 18-21). -/
structure ConditionContext where
  deviceConfig : DeviceConfig
  deviceSchema : ConditionDeviceSchema

/-- Embedding of `buildLHSMapping` (src/unnamed/part_004 lines 36-52):
the left-hand-side fact namespace, five built-in keys plus one
`device.tag.<key>` entry per user tag. -/
def buildLHSMapping (ctx : ConditionContext) : List (String × GoVal) :=
  [("device.sw_config", .bool ctx.deviceSchema.SwConfig),
   ("device.hostname", .str ctx.deviceConfig.Hostname),
   ("device.ipaddr", .str ctx.deviceConfig.IPAddr),
   ("device.model_id", .str ctx.deviceConfig.ModelID),
   ("device.version", .str ctx.deviceSchema.Version)] ++
  ctx.deviceConfig.Tags.map (fun p => ("device.tag." ++ p.1, p.2))

/-- The errors the Go condition evaluator aborts with; in the source both are
`panic`s (src/unnamed/part_004 lines 120 and 141) that nothing recovers. -/
inductive EvalErr where
  | unknownVariable : String → EvalErr
  | unableToParse : String → EvalErr

/-- Embedding of `splitByOperator` (src/unnamed/part_004 lines 78-108) for a
two-character operator `a b`: split outside quoted spans, where either quote
character toggles the in-quotes flag.  An empty chunk is emitted at an
operator but not at the end of the input. -/
def splitByOpAux (a b : Char) : List Char → Bool → List Char → List (List Char)
  | c₁ :: c₂ :: rest, inQ, cur =>
    if c₁ = '\'' ∨ c₁ = '"' then splitByOpAux a b (c₂ :: rest) (!inQ) (c₁ :: cur)
    else if !inQ ∧ c₁ = a ∧ c₂ = b then cur.reverse :: splitByOpAux a b rest inQ []
    else splitByOpAux a b (c₂ :: rest) inQ (c₁ :: cur)
  | [c], _, cur => [(c :: cur).reverse]
  | [], _, cur => if cur = [] then [] else [cur.reverse]

/-- `splitByOperator expr op` for the two-character operator `a b`. -/
def splitByOperator2 (a b : Char) (expr : List Char) : List (List Char) :=
  splitByOpAux a b expr false []

/-- Embedding of `splitComparison` (src/unnamed/part_004 lines 144-166) for a
two-character operator: split at the first occurrence outside quoted spans
(here the closing quote must match the opening one).  `none` means the
operator was not found, i.e. the Go function returned the whole expression. -/
def splitComparisonAux (a b : Char) :
    List Char → Bool → Char → List Char → Option (List Char × List Char)
  | c₁ :: c₂ :: rest, inQ, qc, acc =>
    if c₁ = '\'' ∨ c₁ = '"' then
      if !inQ then splitComparisonAux a b (c₂ :: rest) true c₁ (c₁ :: acc)
      else if c₁ = qc then splitComparisonAux a b (c₂ :: rest) false qc (c₁ :: acc)
      else splitComparisonAux a b (c₂ :: rest) true qc (c₁ :: acc)
    else if !inQ ∧ c₁ = a ∧ c₂ = b then some (acc.reverse, rest)
    else splitComparisonAux a b (c₂ :: rest) inQ qc (c₁ :: acc)
  | _, _, _, _ => none

/-- `splitComparison expr op` for the two-character operator `a b`. -/
def splitComparison2 (a b : Char) (expr : List Char) :
    Option (List Char × List Char) :=
  splitComparisonAux a b expr false ' ' []

/-- Embedding of `parseValue` (src/unnamed/part_004 lines 168-185): trim,
strip one layer of matching single or double quotes, then attempt a JSON
scalar parse of the remainder, falling back to the raw string.  The Go code
indexes `s[1 : len(s)-1]` and panics on the one-character tokens `'` and `"`
(prefix and suffix both match); stripping is therefore restricted to tokens of
length at least two, which no claim distinguishes. -/
def parseValue (s : String) : GoVal :=
  let t := trimChars s.data
  let stripped :=
    if 2 ≤ t.length ∧
        ((t.head? = some '\'' ∧ t.getLast? = some '\'') ∨
         (t.head? = some '"' ∧ t.getLast? = some '"')) then
      (t.drop 1).dropLast
    else t
  match jsonUnmarshalScalar stripped with
  | some v => v
  | none => .str (String.mk stripped)

/-- Embedding of `compareScalar` (src/unnamed/part_004 lines 226-239): two
booleans compare as booleans; any other pair compares by `%v` string form. -/
def compareScalar (lhs rhs : GoVal) : Bool :=
  match lhs, rhs with
  | .bool a, .bool b => a = b
  | l, r => goFormatV l = goFormatV r

/-- Embedding of `compareValues` (src/unnamed/part_004 lines 187-224): a list
left-hand side means membership; otherwise scalar comparison.  (The Go
`[]string` branch is unreachable for JSON-decoded values and has the same
semantics as the `[]interface{}` branch.) -/
def compareValues (lhs rhs : GoVal) (equals : Bool) : Bool :=
  match lhs with
  | .arr items =>
    let contains := items.any (fun item => compareScalar item rhs)
    if equals then contains else !contains
  | _ =>
    let result := compareScalar lhs rhs
    if equals then result else !result

/-- Embedding of `evaluateComparison` (src/unnamed/part_004 lines 110-142):
try `==` first, then `!=`; an unknown left-hand side is the
`Invalid conditional parameter` panic, an unsplittable expression the
`Unable to parse condition` panic. -/
def evaluateComparison (expr : List Char) (m : List (String × GoVal)) :
    Except EvalErr Bool :=
  let e := trimChars expr
  match splitComparison2 '=' '=' e with
  | some (l, r) =>
    let lhs := String.mk (trimChars l)
    let rhs := String.mk (trimChars r)
    match goLookup lhs m with
    | none => .error (.unknownVariable lhs)
    | some lhsValue => .ok (compareValues lhsValue (parseValue rhs) true)
  | none =>
    match splitComparison2 '!' '=' e with
    | some (l, r) =>
      let lhs := String.mk (trimChars l)
      let rhs := String.mk (trimChars r)
      match goLookup lhs m with
      | none => .error (.unknownVariable lhs)
      | some lhsValue => .ok (compareValues lhsValue (parseValue rhs) false)
    | none => .error (.unableToParse (String.mk e))

/-- The inner loop of `evaluateExpression` (src/unnamed/part_004 lines
62-68): an AND-group is true until a conjunct is false; a panic in an earlier
conjunct propagates before later ones run. -/
def evaluateAndParts (m : List (String × GoVal)) :
    List (List Char) → Except EvalErr Bool
  | [] => .ok true
  | p :: rest => do
    let b ← evaluateComparison (trimChars p) m
    if b then evaluateAndParts m rest else .ok false

/-- The outer loop of `evaluateExpression` (src/unnamed/part_004 lines
58-73): the expression is true at the first fully-true AND-group. -/
def evaluateOrParts (m : List (String × GoVal)) :
    List (List Char) → Except EvalErr Bool
  | [] => .ok false
  | p :: rest => do
    let b ← evaluateAndParts m (splitByOperator2 '&' '&' p)
    if b then .ok true else evaluateOrParts m rest

/-- Embedding of `evaluateExpression` (src/unnamed/part_004 lines 54-76). -/
def evaluateExpression (expr : List Char) (m : List (String × GoVal)) :
    Except EvalErr Bool :=
  evaluateOrParts m (splitByOperator2 '|' '|' expr)

/-- Embedding of `condition.Evaluate` (src/unnamed/part_004 lines 24-34):
a nil condition or the literal `*` is true; otherwise the expression is
evaluated against the fact mapping. -/
def Evaluate (condition : Option String) (ctx : ConditionContext) :
    Except EvalErr Bool :=
  match condition with
  | none => .ok true
  | some c =>
    if c = "*" then .ok true
    else evaluateExpression c.data (buildLHSMapping ctx)

/-- Override processing, the `.overrides` loop of `applyObject`
(src/unnamed/part_001 lines 225-250): overrides are visited in list order; a
non-object element is skipped; an override whose own `.if` evaluates true has
its `override` object's fields written into the result map one by one. -/
def applyOverrides (ctx : ConditionContext) :
    List GoVal → List (String × GoVal) → Except EvalErr (List (String × GoVal))
  | [], result => .ok result
  | ov :: rest, result =>
    match ov with
    | .obj ovMap => do
      let cond : Option String :=
        match goLookup ".if" ovMap with
        | some (.str s) => some s
        | _ => none
      let b ← Evaluate cond ctx
      let result' :=
        if b then
          match goLookup "override" ovMap with
          | some (.obj od) => od.foldl (fun acc p => mapInsert acc p.1 p.2) result
          | _ => result
        else result
      applyOverrides ctx rest result'
    | _ => applyOverrides ctx rest result

/-- Embedding of `applyObject` (src/unnamed/part_001 lines 202-253): evaluate
the node's `.if` (a missing or non-string `.if` means no condition); a false
condition empties the node; otherwise copy all fields except `.if` and
`.overrides` and then apply the overrides in order. -/
def applyObject (obj : List (String × GoVal)) (ctx : ConditionContext) :
    Except EvalErr (List (String × GoVal)) := do
  let conditionStr : Option String :=
    match goLookup ".if" obj with
    | some (.str s) => some s
    | _ => none
  let condMatches ← Evaluate conditionStr ctx
  if condMatches then
    let result := obj.filter (fun p => p.1 ≠ ".if" ∧ p.1 ≠ ".overrides")
    match goLookup ".overrides" obj with
    | some (.arr overrides) => applyOverrides ctx overrides result
    | _ => .ok result
  else
    .ok []

/-- The per-section loop of `resolveConfig` (src/unnamed/part_001 lines
176-187): each object element of a section list is resolved with
`applyObject` and kept only when non-empty. -/
def resolveSectionList (ctx : ConditionContext) :
    List GoVal → Except EvalErr (List GoVal)
  | [] => .ok []
  | s :: rest =>
    match s with
    | .obj sectionMap => do
      let resolvedSection ← applyObject sectionMap ctx
      let tail ← resolveSectionList ctx rest
      .ok (if resolvedSection.length > 0 then .obj resolvedSection :: tail else tail)
    | _ => resolveSectionList ctx rest

/-- The per-key loop inside one config group of `resolveConfig`
(src/unnamed/part_001 lines 166-192): keys starting with `.` and values that
are not lists are skipped; an empty resolved section list drops the key. -/
def resolveSections (ctx : ConditionContext) :
    List (String × GoVal) → Except EvalErr (List (String × GoVal))
  | [] => .ok []
  | (sectionKey, sectionValue) :: rest =>
    if sectionKey.data.head? = some '.' then resolveSections ctx rest
    else
      match sectionValue with
      | .arr sections => do
        let lst ← resolveSectionList ctx sections
        let tail ← resolveSections ctx rest
        .ok (if lst.length > 0 then (sectionKey, .arr lst) :: tail else tail)
      | _ => resolveSections ctx rest

/-- Embedding of `resolveConfig` (src/unnamed/part_001 lines 133-200) on the
JSON form of `oncConfig.Config` (note the marshaling step drops the `Extra`
field, whose tag is `json:"-"`): the key `extra` is skipped outright,
non-object groups are skipped, each group object is resolved with
`applyObject`, empty results are dropped. -/
def resolveConfig (configMap : List (String × GoVal)) (ctx : ConditionContext) :
    Except EvalErr (List (String × GoVal)) :=
  match configMap with
  | [] => .ok []
  | (configKey, configValue) :: rest =>
    if configKey = "extra" then resolveConfig rest ctx
    else
      match configValue with
      | .obj configObj => do
        let appliedConfig ← applyObject configObj ctx
        if appliedConfig.length = 0 then resolveConfig rest ctx
        else do
          let resolvedSections ← resolveSections ctx appliedConfig
          let tail ← resolveConfig rest ctx
          .ok (if resolvedSections.length > 0 then
                 (configKey, .obj resolvedSections) :: tail
               else tail)
      | _ => resolveConfig rest ctx

/-- A package to install (`uci.Package`, src/unnamed/part_003 lines 611-614);
the Go zero value of `Version` is the empty string. -/
structure Package where
  Name : String
  Version : String
deriving DecidableEq

/-- An installed package reported by `opkg list-installed`
(`uci.InstalledPackage`, src/unnamed/part_003 lines 617-620). -/
structure InstalledPackage where
  Name : String
  Version : String
deriving DecidableEq

/-- A conditional bundle of package tokens (`config.PackageProfile`,
src/unnamed/part_002 lines 35-38). -/
structure PackageProfile where
  If : Option String
  Packages : List String

/-- A conditional list of reset exemptions (`config.ConfigsToNotReset`,
src/unnamed/part_002 lines 41-44). -/
structure ConfigsToNotReset where
  If : Option String
  Configs : List String

/-- The install-token parse of `resolvePackages` (src/unnamed/part_001 lines
277-284): `strings.Split` on every `@`; the name is `parts[0]` and the
version `parts[1]` when present. -/
def parsePackageToken (pkg : String) : Package :=
  let parts := splitOnChar '@' pkg.data []
  { Name := String.mk (parts.headD []),
    Version := String.mk ((parts.drop 1).headD []) }

/-- The directive loop of `resolvePackages` (src/unnamed/part_001 lines
273-285): a token starting with `-` contributes its remainder to the
uninstall list, any other token is parsed as an install directive. -/
def splitDirectives : List String → List Package × List String
  | [] => ([], [])
  | pkg :: rest =>
    let r := splitDirectives rest
    if pkg.data.head? = some '-' then
      (r.1, String.mk (pkg.data.drop 1) :: r.2)
    else
      (parsePackageToken pkg :: r.1, r.2)

/-- The profile loop of `resolvePackages` (src/unnamed/part_001 lines
258-262): every profile whose condition evaluates true contributes its
tokens, in order; an evaluation panic in an earlier profile propagates before
later profiles run. -/
def collectMatchingPackages :
    List PackageProfile → ConditionContext → Except EvalErr (List String)
  | [], _ => .ok []
  | p :: rest, ctx => do
    let b ← Evaluate p.If ctx
    let tail ← collectMatchingPackages rest ctx
    .ok (if b then p.Packages ++ tail else tail)

/-- Embedding of `resolvePackages` (src/unnamed/part_001 lines 255-288):
collect the tokens of all matching profiles, deduplicate them as a set of raw
token strings, then split the set into install and uninstall directives.  The
Go code iterates the set in unspecified order; `List.dedup` fixes one order,
and every verified property of the result is order-insensitive
(membership only). -/
def resolvePackages (profiles : List PackageProfile) (ctx : ConditionContext) :
    Except EvalErr (List Package × List String) := do
  let allPackages ← collectMatchingPackages profiles ctx
  .ok (splitDirectives allPackages.dedup)

/-- Embedding of `resolveConfigsToNotReset` (src/unnamed/part_001 lines
290-300). -/
def resolveConfigsToNotReset :
    List ConfigsToNotReset → ConditionContext → Except EvalErr (List String)
  | [], _ => .ok []
  | item :: rest, ctx => do
    let b ← Evaluate item.If ctx
    let tail ← resolveConfigsToNotReset rest ctx
    .ok (if b then item.Configs ++ tail else tail)

/-- Embedding of `getConfigSectionsToReset` (src/unnamed/part_001 lines
302-330): for each schema group, skip it entirely when `<group>.*` is
exempted, otherwise keep the section types that are not exempted as
`<group>.<section>`, and drop the group when nothing remains.  (The Go
`notResetSet` map is membership-equivalent to `List.contains`.) -/
def getConfigSectionsToReset :
    List (String × List String) → List String → List (String × List String)
  | [], _ => []
  | (configKey, sectionKeys) :: rest, configsToNotReset =>
    if configsToNotReset.contains (configKey ++ ".*") then
      getConfigSectionsToReset rest configsToNotReset
    else
      let sectionsToReset :=
        sectionKeys.filter
          (fun s => !(configsToNotReset.contains (configKey ++ "." ++ s)))
      if sectionsToReset.length > 0 then
        (configKey, sectionsToReset) :: getConfigSectionsToReset rest configsToNotReset
      else
        getConfigSectionsToReset rest configsToNotReset

/-- Embedding of `coerceValue` (src/unnamed/part_003 lines 507-525): booleans
become `1`/`0`, strings pass through, a (JSON-decoded) number is rendered in
decimal (`strconv.FormatFloat(v, 'f', -1, 64)`; the stored JSON lexeme stands
for it, no claim compares the re-formatting), anything else falls back to
`%v`. -/
def coerceValue : GoVal → String
  | .bool true => "1"
  | .bool false => "0"
  | .str s => s
  | .num lit => lit
  | v => goFormatV v

/-- Embedding of `generatePropertyCommands` (src/unnamed/part_003 lines
488-505): list values become one `uci add_list` per element in order, scalar
values one `uci set`. -/
def generatePropertyCommands (identifier key : String) (value : GoVal) :
    List String :=
  match value with
  | .arr items =>
    items.map (fun item =>
      "uci add_list " ++ identifier ++ "." ++ key ++ "='" ++ coerceValue item ++ "'")
  | v =>
    ["uci set " ++ identifier ++ "." ++ key ++ "='" ++ coerceValue v ++ "'"]

/-- Embedding of `GenerateCommands` (src/unnamed/part_003 lines 441-486): for
every section object carrying a string `.name`, emit the section-creation
command followed by the property commands of every other field.  The three
levels of Go map iteration (`openWrtConfig`, `configMap`, `sectionMap`) are
embedded as the association-list order. -/
def GenerateCommands (openWrtConfig : List (String × GoVal)) : List String :=
  openWrtConfig.flatMap (fun cv =>
    match cv.2 with
    | .obj configMap =>
      configMap.flatMap (fun sv =>
        match sv.2 with
        | .arr sections =>
          sections.flatMap (fun sec =>
            match sec with
            | .obj sectionMap =>
              match goLookup ".name" sectionMap with
              | some (.str sectionName) =>
                let identifier := cv.1 ++ "." ++ sectionName
                ("uci set " ++ identifier ++ "=" ++ sv.1) ::
                  sectionMap.flatMap (fun p =>
                    if p.1 = ".name" then []
                    else generatePropertyCommands identifier p.1 p.2)
              | _ => []
            | _ => [])
        | _ => [])
    | _ => [])

/-- Embedding of `GetResetCommands` (src/unnamed/part_003 lines 528-539):
one delete-loop command per (group, section-type) pair, in map-iteration
order. -/
def GetResetCommands (configSectionsToReset : List (String × List String)) :
    List String :=
  configSectionsToReset.flatMap (fun g =>
    g.2.map (fun sectionKey =>
      "while uci -q delete " ++ g.1 ++ ".@" ++ sectionKey ++ "[0]; do :; done"))

/-- Embedding of `GetPackageCommands` (src/unnamed/part_003 lines 542-608):
with a snapshot (`installedPackages != nil`, embedded as `some`), keep only
uninstalls of currently installed names and installs of names not currently
installed — both comparisons by `Name` only; then emit the combined removal
command followed by the update and combined install commands, joining the
package names in input order. -/
def GetPackageCommands (packagesToInstall : List Package)
    (packagesToUninstall : List String)
    (installedPackages : Option (List InstalledPackage)) : List String :=
  let filteredInstall :=
    match installedPackages with
    | some installed =>
      packagesToInstall.filter (fun (pkg : Package) => !(installed.any (fun i => i.Name = pkg.Name)))
    | none => packagesToInstall
  let filteredUninstall :=
    match installedPackages with
    | some installed =>
      packagesToUninstall.filter (fun (pkg : String) => installed.any (fun i => i.Name = pkg))
    | none => packagesToUninstall
  (if filteredUninstall.length > 0 then
    ["opkg remove --force-removal-of-dependent-packages " ++ joinSpace filteredUninstall]
   else []) ++
  (if filteredInstall.length > 0 then
    ["opkg update;", "opkg install " ++ joinSpace (filteredInstall.map Package.Name)]
   else [])

/-- Device schema (`device.DeviceSchema`, src/internal/device/schema.go);
`Ports` and `Radios` are read by no modeled operation and omitted. -/
structure DeviceSchema where
  Name : String
  Version : String
  SwConfig : Bool
  ConfigSections : List (String × List String)

/-- Root configuration (`config.ONCConfig`, src/unnamed/part_002 lines 6-11).
`Config` is the JSON-marshaled form of the `ConfigConfig` struct consumed by
`resolveConfig` (src/unnamed/part_001 lines 137-145); marshaling emits the
known group fields and drops `Extra`, whose tag is `json:"-"`. -/
structure ONCConfig where
  Devices : List DeviceConfig
  PackageProfiles : List PackageProfile
  ConfigsToNotReset : List ConfigsToNotReset
  Config : List (String × GoVal)

/-- The state to be applied to a device (`device.OpenWrtState`,
src/unnamed/part_001 lines 93-98). -/
structure OpenWrtState where
  Config : List (String × GoVal)
  PackagesToInstall : List Package
  PackagesToUninstall : List String
  ConfigSectionsToReset : List (String × List String)

/-- Embedding of `GetOpenWrtState` (src/unnamed/part_001 lines 101-131):
build the condition context, then resolve the config tree, the package plan
and the reset scope; an evaluation panic anywhere aborts the whole state
computation. -/
def GetOpenWrtState (oncConfig : ONCConfig) (deviceConfig : DeviceConfig)
    (deviceSchema : DeviceSchema) : Except EvalErr OpenWrtState := do
  let ctx : ConditionContext :=
    { deviceConfig := deviceConfig,
      deviceSchema :=
        { SwConfig := deviceSchema.SwConfig, Version := deviceSchema.Version } }
  let openWrtConfig ← resolveConfig oncConfig.Config ctx
  let pkgs ← resolvePackages oncConfig.PackageProfiles ctx
  let configsToNotReset ← resolveConfigsToNotReset oncConfig.ConfigsToNotReset ctx
  .ok { Config := openWrtConfig,
        PackagesToInstall := pkgs.1,
        PackagesToUninstall := pkgs.2,
        ConfigSectionsToReset :=
          getConfigSectionsToReset deviceSchema.ConfigSections configsToNotReset }

/-- Modelled after the per-device loop of `ProvisionConfig`
(src/unnamed/part_002 lines 346-367), restricted to the state-resolution step
shared by all devices; connection, schema-fetching and skip logic are I/O and
out of scope.  The control flow is the point: the first device whose
resolution fails aborts the loop and the remaining devices are not processed
(in the Go source the failure is an unrecovered `panic`, which aborts the
entire process). -/
def resolveStatesForDevices (oncConfig : ONCConfig)
    (devices : List DeviceConfig) (deviceSchema : DeviceSchema) :
    Except EvalErr (List OpenWrtState) :=
  match devices with
  | [] => .ok []
  | d :: rest => do
    let s ← GetOpenWrtState oncConfig d deviceSchema
    let tail ← resolveStatesForDevices oncConfig rest deviceSchema
    .ok (s :: tail)

/-- Characters that a comparison left-hand-side path may consist of without
interfering with operator or quote scanning: no quote, no operator character,
no white space. -/
def plainIdentChar (c : Char) : Bool :=
  !(c = '\'' ∨ c = '"' ∨ c = '|' ∨ c = '&' ∨ c = '=' ∨ c = '!' ∨ isSpaceChar c)

/-- A non-empty identifier of plain characters. -/
def plainIdent (s : String) : Bool :=
  !s.data.isEmpty && s.data.all plainIdentChar

/-- Whether a token list wraps a token in matching quotes, the test
`parseValue` strips by (`strings.HasPrefix`/`HasSuffix` on the same quote
character). -/
def isQuoteWrapped (l : List Char) : Bool :=
  (l.head? = some '\'' ∧ l.getLast? = some '\'') ∨
    (l.head? = some '"' ∧ l.getLast? = some '"')

/-- A sample device with no tags. -/
def sampleDeviceNoTags : DeviceConfig :=
  { Enabled := none, ModelID := "ubnt,edgerouter-x", IPAddr := "192.168.1.1",
    Hostname := "test-router", Tags := [] }

/-- A sample device tagged `role = router`. -/
def sampleDeviceRouter : DeviceConfig :=
  { Enabled := none, ModelID := "ubnt,edgerouter-x", IPAddr := "192.168.1.2",
    Hostname := "test-router-2", Tags := [("role", .str "router")] }

/-- The condition context of `sampleDeviceNoTags`. -/
def sampleCtx : ConditionContext :=
  { deviceConfig := sampleDeviceNoTags,
    deviceSchema := { SwConfig := false, Version := "23.05.0" } }

/-- A configuration with one package profile conditional on the `role` tag. -/
def sampleONC : ONCConfig :=
  { Devices := [sampleDeviceNoTags, sampleDeviceRouter],
    PackageProfiles := [⟨some "device.tag.role == 'router'", ["sqm-scripts"]⟩],
    ConfigsToNotReset := [],
    Config := [] }

/-- A device schema with no known config sections. -/
def sampleSchema : DeviceSchema :=
  { Name := "ubnt,edgerouter-x", Version := "23.05.0", SwConfig := false,
    ConfigSections := [] }

/-- One sample resolved `network` group with a single named section. -/
def cfgNetworkEntry : String × GoVal :=
  ("network", .obj [("interface", .arr [.obj [(".name", .str "wan")]])])

/-- One sample resolved `system` group with a single named section. -/
def cfgSystemEntry : String × GoVal :=
  ("system", .obj [("system", .arr [.obj [(".name", .str "system")]])])

/-- A found binding survives appending. -/
theorem goLookup_append_left {α : Type} {k : String} {l₁ : List (String × α)}
    {v : α} (l₂ : List (String × α)) (h : goLookup k l₁ = some v) :
    goLookup k (l₁ ++ l₂) = some v := by
  induction l₁ with
  | nil => simp [goLookup] at h
  | cons p rest ih =>
    by_cases hp : p.1 = k
    · simpa [goLookup, hp] using h
    · simp only [goLookup, hp, if_false] at h ⊢
      exact ih h

/-- Lookup falls through to the second list when the first has no binding. -/
theorem goLookup_append_right {α : Type} {k : String} {l₁ : List (String × α)}
    (l₂ : List (String × α)) (h : goLookup k l₁ = none) :
    goLookup k (l₁ ++ l₂) = goLookup k l₂ := by
  induction l₁ with
  | nil => rfl
  | cons p rest ih =>
    by_cases hp : p.1 = k
    · simp [goLookup, hp] at h
    · simp only [goLookup, hp, if_false] at h ⊢
      exact ih h

/-- A list with no binding of the key looks up to `none`. -/
theorem goLookup_eq_none_of_not_any {α : Type} {k : String}
    {m : List (String × α)} (h : m.any (fun p => p.1 = k) = false) :
    goLookup k m = none := by
  induction m with
  | nil => rfl
  | cons p rest ih =>
    simp only [List.any_cons, Bool.or_eq_false_iff, decide_eq_false_iff_not] at h
    simp [goLookup, h.1, ih (by simpa using h.2)]

/-- Replacing the (absent) bindings of `k` does not change any lookup. -/
theorem goLookup_map_replace_of_not_any {α : Type} {k : String} {v : α}
    {m : List (String × α)} (x : String)
    (h : m.any (fun p => p.1 = k) = false) :
    goLookup x (m.map (fun q => if q.1 = k then (k, v) else q)) =
      goLookup x m := by
  induction m with
  | nil => rfl
  | cons q rest ih =>
    simp only [List.any_cons, Bool.or_eq_false_iff, decide_eq_false_iff_not] at h
    simp only [List.map_cons, h.1, if_false, goLookup]
    by_cases hq : q.1 = x
    · simp [hq]
    · simp [hq, ih (by simpa using h.2)]

/-- Replacing the bindings of `k` in a list that has one: looking up `k`
yields the replacement, every other key is untouched. -/
theorem goLookup_map_replace_of_any {α : Type} {k : String} {v : α}
    {m : List (String × α)} (x : String)
    (h : m.any (fun p => p.1 = k) = true) :
    goLookup x (m.map (fun q => if q.1 = k then (k, v) else q)) =
      if k = x then some v else goLookup x m := by
  induction m with
  | nil => simp at h
  | cons q rest ih =>
    by_cases hqk : q.1 = k
    · simp only [List.map_cons, hqk, if_true]
      by_cases hkx : k = x
      · subst hkx
        simp [goLookup]
      · simp only [goLookup, hkx, if_false]
        have hqx : ¬(q.1 = x) := by rw [hqk]; exact hkx
        simp only [hqx, if_false]
        by_cases hrest : rest.any (fun p => p.1 = k)
        · rw [ih hrest]; simp [hkx]
        · rw [goLookup_map_replace_of_not_any x
            (by simpa using Bool.of_not_eq_true hrest)]
    · simp only [List.map_cons, hqk, if_false, goLookup]
      simp only [List.any_cons, decide_eq_true_eq, hqk, false_or] at h
      by_cases hqx : q.1 = x
      · simp only [hqx, if_true]
        by_cases hkx : k = x
        · exact absurd (hkx ▸ hqx : q.1 = k) hqk
        · simp [hkx]
      · simp [hqx, ih h]

/-- `goLookup` after a Go map write: the written key reads back the new value,
every other key is untouched. -/
theorem goLookup_mapInsert {α : Type} (m : List (String × α)) (k x : String)
    (v : α) :
    goLookup x (mapInsert m k v) = if k = x then some v else goLookup x m := by
  unfold mapInsert
  by_cases hany : m.any (fun p => p.1 = k)
  · simp only [hany, if_true]
    exact goLookup_map_replace_of_any x hany
  · have hfalse : m.any (fun p => p.1 = k) = false := Bool.of_not_eq_true hany
    rw [hfalse, if_neg Bool.false_ne_true]
    have hnone : goLookup k m = none := goLookup_eq_none_of_not_any hfalse
    by_cases hkx : k = x
    · subst hkx
      rw [goLookup_append_right _ hnone]
      simp [goLookup]
    · cases h : goLookup x m with
      | some w =>
        rw [goLookup_append_left _ h]
        simp [hkx]
      | none =>
        rw [goLookup_append_right _ h]
        simp [goLookup, hkx]

/-- Folding Go map writes of an association list `m` over an accumulator: the
last binding of the key in `m` wins, else the accumulator answers. -/
theorem goLookup_foldInsert {α : Type} (m acc : List (String × α)) (x : String) :
    goLookup x (m.foldl (fun a p => mapInsert a p.1 p.2) acc) =
      ((goLookup x m.reverse).orElse (fun _ => goLookup x acc)) := by
  induction m generalizing acc with
  | nil => simp [goLookup, Option.orElse]
  | cons p rest ih =>
    simp only [List.foldl_cons, List.reverse_cons]
    rw [ih (mapInsert acc p.1 p.2)]
    cases h : goLookup x rest.reverse with
    | some w => rw [goLookup_append_left [p] h]; simp [Option.orElse]
    | none =>
      rw [goLookup_append_right [p] h]
      simp only [h, Option.orElse]
      rw [goLookup_mapInsert]
      by_cases hp : p.1 = x
      · simp [goLookup, hp]
      · simp [goLookup, hp]

/-- `dropWhile` keeps a list whose every element fails the predicate. -/
theorem dropWhile_eq_self_of_all {p : Char → Bool} {l : List Char}
    (h : ∀ c ∈ l, p c = false) : l.dropWhile p = l := by
  induction l with
  | nil => rfl
  | cons c rest ih =>
    rw [List.dropWhile_cons]
    simp [h c (List.mem_cons_self c rest), ih (fun d hd => h d (List.mem_cons_of_mem c hd))]

/-- Trimming does nothing when both edge characters are non-space. -/
theorem trimChars_eq_self {l : List Char} {c d : Char}
    (hhead : l.head? = some c) (hc : isSpaceChar c = false)
    (hlast : l.getLast? = some d) (hd : isSpaceChar d = false) :
    trimChars l = l := by
  unfold trimChars
  cases l with
  | nil => simp at hhead
  | cons a rest =>
    have ha : a = c := by simpa using hhead
    subst ha
    rw [List.dropWhile_cons]
    rw [hc]
    simp only [Bool.false_eq_true, if_false]
    cases hrev : (a :: rest).reverse with
    | nil => simp at hrev
    | cons b tail =>
      have hb : (a :: rest).reverse.head? = some b := by rw [hrev]; rfl
      rw [List.head?_reverse] at hb
      have hbd : b = d := by rw [hlast] at hb; exact (by simpa using hb : d = b).symm
      rw [List.dropWhile_cons, hbd, hd]
      simp only [Bool.false_eq_true, if_false]
      rw [← hbd, ← hrev, List.reverse_reverse]

/-- Trimming strips a single trailing space from an all-non-space list. -/
theorem trimChars_append_space {l : List Char}
    (h : ∀ c ∈ l, isSpaceChar c = false) :
    trimChars (l ++ [' ']) = l := by
  unfold trimChars
  cases l with
  | nil => rfl
  | cons a rest =>
    rw [List.cons_append, List.dropWhile_cons]
    rw [h a (List.mem_cons_self a rest)]
    simp only [Bool.false_eq_true, if_false]
    rw [show (a :: (rest ++ [' '])).reverse = ' ' :: (a :: rest).reverse by
      rw [← List.cons_append, List.reverse_append]; rfl]
    rw [List.dropWhile_cons]
    simp only [show isSpaceChar ' ' = true from rfl, if_true]
    rw [dropWhile_eq_self_of_all (fun d hd => h d (by simpa using List.mem_reverse.mp hd))]
    exact List.reverse_reverse _

/-- `splitByOperator` finds no operator in input free of the operator's first
character: the whole input comes back as one chunk. -/
theorem splitByOpAux_no_op {a b : Char} {l : List Char}
    (h : ∀ c ∈ l, c ≠ a) :
    ∀ (inQ : Bool) (cur : List Char),
      splitByOpAux a b l inQ cur =
        if l = [] ∧ cur = [] then [] else [cur.reverse ++ l] := by
  induction l with
  | nil =>
    intro inQ cur
    by_cases hcur : cur = [] <;> simp [splitByOpAux, hcur]
  | cons c₁ rest ih =>
    intro inQ cur
    cases rest with
    | nil => simp [splitByOpAux]
    | cons c₂ rest' =>
      have hc₁ : c₁ ≠ a := h c₁ (List.mem_cons_self _ _)
      have htail : ∀ c ∈ c₂ :: rest', c ≠ a :=
        fun c hc => h c (List.mem_cons_of_mem _ hc)
      by_cases hq : c₁ = '\'' ∨ c₁ = '"'
      · rw [show splitByOpAux a b (c₁ :: c₂ :: rest') inQ cur =
            splitByOpAux a b (c₂ :: rest') (!inQ) (c₁ :: cur) by
          conv_lhs => rw [splitByOpAux]
          rw [if_pos hq]]
        rw [ih htail]
        simp
      · rw [show splitByOpAux a b (c₁ :: c₂ :: rest') inQ cur =
            splitByOpAux a b (c₂ :: rest') inQ (c₁ :: cur) by
          conv_lhs => rw [splitByOpAux]
          rw [if_neg hq, if_neg (by simp [hc₁])]]
        rw [ih htail]
        simp

/-- `splitComparison` on `<ident> == <rest>` splits exactly at the operator. -/
theorem splitComparisonAux_ident {k : List Char}
    (h : ∀ c ∈ k, plainIdentChar c = true) :
    ∀ (qc : Char) (acc r : List Char),
      splitComparisonAux '=' '=' (k ++ ' ' :: '=' :: '=' :: r) false qc acc =
        some (acc.reverse ++ (k ++ [' ']), r) := by
  induction k with
  | nil =>
    intro qc acc r
    simp only [List.nil_append]
    rw [show splitComparisonAux '=' '=' (' ' :: '=' :: '=' :: r) false qc acc =
        splitComparisonAux '=' '=' ('=' :: '=' :: r) false qc (' ' :: acc) by
      conv_lhs => rw [splitComparisonAux]
      rw [if_neg (by decide), if_neg (by decide)]]
    rw [show splitComparisonAux '=' '=' ('=' :: '=' :: r) false qc (' ' :: acc) =
        some ((' ' :: acc).reverse, r) by
      conv_lhs => rw [splitComparisonAux]
      rw [if_neg (by decide), if_pos (by decide)]]
    simp
  | cons c₁ k' ih =>
    intro qc acc r
    have hc₁ : plainIdentChar c₁ = true := h c₁ (List.mem_cons_self _ _)
    have hq : ¬(c₁ = '\'' ∨ c₁ = '"') := by
      intro hcontra
      unfold plainIdentChar at hc₁
      rcases hcontra with h1 | h1 <;> simp [h1] at hc₁
    have heq : ¬(c₁ = '=') := by
      intro hcontra
      unfold plainIdentChar at hc₁
      simp [hcontra] at hc₁
    rw [show splitComparisonAux '=' '=' ((c₁ :: k') ++ ' ' :: '=' :: '=' :: r) false qc acc =
        splitComparisonAux '=' '=' (k' ++ ' ' :: '=' :: '=' :: r) false qc (c₁ :: acc) by
      cases hk : k' ++ ' ' :: '=' :: '=' :: r with
      | nil => exact absurd hk (by simp)
      | cons d rest' =>
        conv_lhs => rw [List.cons_append, hk, splitComparisonAux]
        rw [if_neg hq, if_neg (by simp [heq]), ← hk]]
    rw [ih (fun c hc => h c (List.mem_cons_of_mem _ hc)) qc (c₁ :: acc) r]
    simp

/-- A plain identifier character is not white space and not an operator
character. -/
theorem plainIdentChar_props {c : Char} (h : plainIdentChar c = true) :
    isSpaceChar c = false ∧ c ≠ '|' ∧ c ≠ '&' := by
  unfold plainIdentChar at h
  simp only [Bool.not_eq_true', Bool.decide_or, Bool.or_eq_false_iff,
    decide_eq_false_iff_not] at h
  exact ⟨by simpa using h.2.2.2.2.2.2, h.2.2.1, h.2.2.2.1⟩


/-- One override step of `applyOverrides` whose condition holds: the
override object's fields are folded into the result. -/
theorem applyOverrides_true_step (ctx : ConditionContext) (c : String)
    (m : List (String × GoVal)) (rest : List GoVal)
    (result : List (String × GoVal))
    (hc : Evaluate (some c) ctx = .ok true) :
    applyOverrides ctx
      (GoVal.obj [(".if", GoVal.str c), ("override", GoVal.obj m)] :: rest) result =
    applyOverrides ctx rest
      (m.foldl (fun acc p => mapInsert acc p.1 p.2) result) := by
  conv_lhs => rw [applyOverrides]
  simp only [goLookup, reduceIte, hc, bind, Except.bind]
  rw [if_neg (show (".if" : String) ≠ "override" by decide)]

/-- Every token of a matching profile reaches the collected token list. -/
theorem mem_collectMatchingPackages {profiles : List PackageProfile}
    {ctx : ConditionContext} {toks : List String}
    (hok : collectMatchingPackages profiles ctx = .ok toks)
    {p : PackageProfile} (hp : p ∈ profiles)
    (htrue : Evaluate p.If ctx = .ok true)
    {t : String} (ht : t ∈ p.Packages) : t ∈ toks := by
  induction profiles generalizing toks with
  | nil => simp at hp
  | cons q rest ih =>
    unfold collectMatchingPackages at hok
    cases hq : Evaluate q.If ctx with
    | error e => rw [hq] at hok; simp [bind, Except.bind] at hok
    | ok b =>
      rw [hq] at hok
      cases hrest : collectMatchingPackages rest ctx with
      | error e => rw [hrest] at hok; simp [bind, Except.bind] at hok
      | ok tail =>
        rw [hrest] at hok
        simp only [bind, Except.bind, pure, Except.pure, Except.ok.injEq] at hok
        rcases List.mem_cons.mp hp with hpq | hpmem
        · subst hpq
          rw [htrue] at hq
          have hb : b = true := by injection hq with h; exact h.symm
          subst hb
          rw [← hok]
          simp [List.mem_append, ht]
        · have htail := ih hrest hpmem
          rw [← hok]
          by_cases hb : b = true
          · subst hb; simp [List.mem_append, htail]
          · have : b = false := by revert hb; cases b <;> simp
            subst this; simpa using htail

/-- A collected uninstall token lands in the uninstall side of
`splitDirectives`. -/
theorem mem_splitDirectives_uninstall {toks : List String} {t : String}
    (ht : t ∈ toks) (hdash : t.data.head? = some '-') :
    String.mk (t.data.drop 1) ∈ (splitDirectives toks).2 := by
  induction toks with
  | nil => simp at ht
  | cons x rest ih =>
    unfold splitDirectives
    rcases List.mem_cons.mp ht with hx | hmem
    · subst hx
      rw [if_pos hdash]
      exact List.mem_cons_self _ _
    · by_cases hd : x.data.head? = some '-'
      · rw [if_pos hd]
        exact List.mem_cons_of_mem _ (ih hmem)
      · rw [if_neg hd]
        exact ih hmem

/-- A collected install token lands, parsed, in the install side of
`splitDirectives`. -/
theorem mem_splitDirectives_install {toks : List String} {t : String}
    (ht : t ∈ toks) (hdash : ¬(t.data.head? = some '-')) :
    parsePackageToken t ∈ (splitDirectives toks).1 := by
  induction toks with
  | nil => simp at ht
  | cons x rest ih =>
    unfold splitDirectives
    rcases List.mem_cons.mp ht with hx | hmem
    · subst hx
      rw [if_neg hdash]
      exact List.mem_cons_self _ _
    · by_cases hd : x.data.head? = some '-'
      · rw [if_pos hd]
        exact ih hmem
      · rw [if_neg hd]
        exact List.mem_cons_of_mem _ (ih hmem)

/-- `splitOnChar` on input free of the separator yields one chunk. -/
theorem splitOnChar_no_sep {sep : Char} {l : List Char}
    (h : ∀ c ∈ l, c ≠ sep) :
    ∀ cur, splitOnChar sep l cur = [cur.reverse ++ l] := by
  induction l with
  | nil => intro cur; simp [splitOnChar]
  | cons c rest ih =>
    intro cur
    conv_lhs => rw [splitOnChar]
    rw [if_neg (h c (List.mem_cons_self _ _))]
    rw [ih (fun d hd => h d (List.mem_cons_of_mem _ hd))]
    simp

/-- `splitOnChar` splits off the chunk before the first separator. -/
theorem splitOnChar_append_sep {sep : Char} {a : List Char}
    (h : ∀ c ∈ a, c ≠ sep) :
    ∀ cur (r : List Char),
      splitOnChar sep (a ++ sep :: r) cur =
        (cur.reverse ++ a) :: splitOnChar sep r [] := by
  induction a with
  | nil =>
    intro cur r
    simp only [List.nil_append]
    conv_lhs => rw [splitOnChar]
    rw [if_pos rfl]
    simp
  | cons c rest ih =>
    intro cur r
    rw [List.cons_append]
    conv_lhs => rw [splitOnChar]
    rw [if_neg (h c (List.mem_cons_self _ _))]
    rw [ih (fun d hd => h d (List.mem_cons_of_mem _ hd))]
    simp

/-- The reset scope introduces no group key that the schema lacks. -/
theorem getConfigSectionsToReset_lookup_none (schema : List (String × List String))
    (notReset : List String) {g : String}
    (h : ∀ e ∈ schema, e.1 ≠ g) :
    goLookup g (getConfigSectionsToReset schema notReset) = none := by
  induction schema with
  | nil => rfl
  | cons e rest ih =>
    have he : e.1 ≠ g := h e (List.mem_cons_self _ _)
    have htail := ih (fun d hd => h d (List.mem_cons_of_mem _ hd))
    unfold getConfigSectionsToReset
    by_cases hskip : notReset.contains (e.1 ++ ".*")
    · rw [if_pos hskip]; exact htail
    · rw [if_neg hskip]
      by_cases hlen : (e.2.filter
          (fun s => !(notReset.contains (e.1 ++ "." ++ s)))).length > 0
      · rw [if_pos hlen]
        simp only [goLookup, he, if_false]
        exact htail
      · rw [if_neg hlen]; exact htail

/-- Filtering by a predicate on the name preserves equality of name lists. -/
theorem filter_names_congr (q : String → Bool) :
    ∀ (l₁ l₂ : List Package), l₁.map Package.Name = l₂.map Package.Name →
      (l₁.filter (fun pkg => q pkg.Name)).map Package.Name =
        (l₂.filter (fun pkg => q pkg.Name)).map Package.Name := by
  intro l₁
  induction l₁ with
  | nil =>
    intro l₂ h
    cases l₂ with
    | nil => rfl
    | cons y ys => simp at h
  | cons x xs ih =>
    intro l₂ h
    cases l₂ with
    | nil => simp at h
    | cons y ys =>
      simp only [List.map_cons, List.cons.injEq] at h
      simp only [List.filter_cons]
      rw [h.1]
      by_cases hq : q y.Name
      · simp only [hq, if_true, List.map_cons, h.1, ih ys h.2]
      · have hq' : q y.Name = false := Bool.of_not_eq_true hq
        simp only [hq', Bool.false_eq_true, if_false]
        exact ih ys h.2


/-- Claim C1, counterexample: with one always-true profile listing
`-firewall4` and another always-true profile listing `firewall4`,
`resolvePackages` puts `firewall4` in the uninstall set but ALSO as a
`Package` in the install set — the raw-token deduplication keeps both
differently-signed tokens, refuting "never in the install set". -/
theorem claimC1_counterexample :
    resolvePackages [⟨none, ["-firewall4"]⟩, ⟨none, ["firewall4"]⟩] sampleCtx =
      .ok ([{ Name := "firewall4", Version := "" }], ["firewall4"]) := by
  rfl

/-- Claim C1, amended: whenever `resolvePackages` succeeds and some profile
whose condition evaluated true lists the token `-firewall4`, the name
`firewall4` is in the uninstall set; and `firewall4` additionally appears in
the install set exactly when another true profile lists the install token
`firewall4` — the two directives coexist rather than cancelling. -/
theorem claimC1 (profiles : List PackageProfile) (ctx : ConditionContext)
    (install : List Package) (uninstall : List String)
    (hok : resolvePackages profiles ctx = .ok (install, uninstall))
    (p₁ : PackageProfile) (hp₁ : p₁ ∈ profiles)
    (ht₁ : Evaluate p₁.If ctx = .ok true)
    (hm₁ : "-firewall4" ∈ p₁.Packages) :
    "firewall4" ∈ uninstall ∧
      (∀ p₂ ∈ profiles, Evaluate p₂.If ctx = .ok true →
        "firewall4" ∈ p₂.Packages →
        ({ Name := "firewall4", Version := "" } : Package) ∈ install) := by
  unfold resolvePackages at hok
  cases hcol : collectMatchingPackages profiles ctx with
  | error e => rw [hcol] at hok; simp [bind, Except.bind] at hok
  | ok toks =>
    rw [hcol] at hok
    simp only [bind, Except.bind, pure, Except.pure, Except.ok.injEq] at hok
    have hsplit : splitDirectives toks.dedup = (install, uninstall) := hok
    constructor
    · have hmem : ("-firewall4" : String) ∈ toks :=
        mem_collectMatchingPackages hcol hp₁ ht₁ hm₁
      have hdedup : ("-firewall4" : String) ∈ toks.dedup := List.mem_dedup.mpr hmem
      have := mem_splitDirectives_uninstall hdedup (by decide)
      rw [hsplit] at this
      simpa using this
    · intro p₂ hp₂ ht₂ hm₂
      have hmem : ("firewall4" : String) ∈ toks :=
        mem_collectMatchingPackages hcol hp₂ ht₂ hm₂
      have hdedup : ("firewall4" : String) ∈ toks.dedup := List.mem_dedup.mpr hmem
      have := mem_splitDirectives_install hdedup (by decide)
      rw [hsplit] at this
      simpa using this

/-- Claim C1, witness: the amended theorem applied to the two-profile
counterexample configuration. -/
theorem claimC1_witness :
    resolvePackages [⟨none, ["-firewall4"]⟩, ⟨none, ["firewall4"]⟩] sampleCtx =
      .ok ([{ Name := "firewall4", Version := "" }], ["firewall4"]) ∧
    ("firewall4" : String) ∈ ["firewall4"] ∧
    ({ Name := "firewall4", Version := "" } : Package) ∈
      [({ Name := "firewall4", Version := "" } : Package)] :=
  ⟨rfl,
   (claimC1 [⟨none, ["-firewall4"]⟩, ⟨none, ["firewall4"]⟩] sampleCtx
      [{ Name := "firewall4", Version := "" }] ["firewall4"] rfl
      ⟨none, ["-firewall4"]⟩ (List.mem_cons_self _ _) rfl
      (List.mem_cons_self _ _)).1,
   (claimC1 [⟨none, ["-firewall4"]⟩, ⟨none, ["firewall4"]⟩] sampleCtx
      [{ Name := "firewall4", Version := "" }] ["firewall4"] rfl
      ⟨none, ["-firewall4"]⟩ (List.mem_cons_self _ _) rfl
      (List.mem_cons_self _ _)).2 ⟨none, ["firewall4"]⟩
      (by simp) rfl (List.mem_cons_self _ _)⟩


/-- Claim C2, counterexample: the quoted token `'true'` does NOT parse as the
string `"true"` — `parseValue` strips the quotes first and then applies the
JSON scalar grammar to the remainder, yielding the boolean `true`. -/
theorem claimC2_counterexample :
    parseValue "'true'" = GoVal.bool true ∧ GoVal.bool true ≠ GoVal.str "true" := by
  refine ⟨rfl, ?_⟩
  intro h
  exact GoVal.noConfusion h

/-- Claim C2, amended: quote stripping happens before JSON parsing, so a
single-quoted token evaluates exactly like its unquoted body — for every
token `s` that is already trimmed and not itself quote-wrapped,
`parseValue ('|s|')` equals `parseValue s`; quoting never forces a string. -/
theorem claimC2 (s : String)
    (htrim : trimChars s.data = s.data)
    (hq : isQuoteWrapped s.data = false) :
    parseValue (String.mk ('\'' :: (s.data ++ ['\'']))) = parseValue s := by
  unfold parseValue
  rw [show (String.mk ('\'' :: (s.data ++ ['\'']))).data =
      '\'' :: (s.data ++ ['\'']) from rfl]
  have hlast : ('\'' :: (s.data ++ ['\''])).getLast? = some '\'' := by
    rw [← List.cons_append]
    exact List.getLast?_concat _
  have hL : trimChars ('\'' :: (s.data ++ ['\''])) =
      '\'' :: (s.data ++ ['\'']) :=
    trimChars_eq_self (c := '\'') (d := '\'') rfl (by decide) hlast (by decide)
  rw [hL, htrim]
  dsimp only
  rw [if_pos (show 2 ≤ ('\'' :: (s.data ++ ['\''])).length ∧
      ((('\'' :: (s.data ++ ['\''])).head? = some '\'' ∧
        ('\'' :: (s.data ++ ['\''])).getLast? = some '\'') ∨
       (('\'' :: (s.data ++ ['\''])).head? = some '"' ∧
        ('\'' :: (s.data ++ ['\''])).getLast? = some '"')) by
    refine ⟨?_, Or.inl ⟨rfl, hlast⟩⟩
    simp [List.length_append])]
  rw [if_neg (show ¬(2 ≤ s.data.length ∧
      ((s.data.head? = some '\'' ∧ s.data.getLast? = some '\'') ∨
       (s.data.head? = some '"' ∧ s.data.getLast? = some '"'))) by
    rintro ⟨-, hd⟩
    have : isQuoteWrapped s.data = true := by
      unfold isQuoteWrapped
      exact decide_eq_true hd
    rw [this] at hq
    exact Bool.noConfusion hq)]
  rw [show (('\'' :: (s.data ++ ['\''])).drop 1).dropLast = s.data by
    rw [show ('\'' :: (s.data ++ ['\''])).drop 1 = s.data ++ ['\''] from rfl]
    exact List.dropLast_concat]

/-- Claim C2, witness: the amended theorem at `s = "true"`, whose quoted form
parses to the boolean `true`. -/
theorem claimC2_witness :
    trimChars "true".data = "true".data ∧
    isQuoteWrapped "true".data = false ∧
    parseValue (String.mk ('\'' :: ("true".data ++ ['\'']))) = parseValue "true" ∧
    parseValue "true" = GoVal.bool true :=
  ⟨rfl, rfl, claimC2 "true" rfl rfl, rfl⟩


/-- Claim C3: evaluation at the failing input.  `GetPackageCommands` joins the
package names in the order of its input slices — it performs no sort — so the
removal command lists `d c` and the install command lists `b a`, not the
sorted `c d` / `a b` the specification requires for deterministic output. -/
theorem claimC3 :
    GetPackageCommands [⟨"b", ""⟩, ⟨"a", ""⟩] ["d", "c"] none =
      ["opkg remove --force-removal-of-dependent-packages d c",
       "opkg update;", "opkg install b a"] ∧
    ("opkg install b a" : String) ≠ "opkg install a b" ∧
    ("opkg remove --force-removal-of-dependent-packages d c" : String) ≠
      "opkg remove --force-removal-of-dependent-packages c d" :=
  ⟨rfl, by decide, by decide⟩

/-- Claim C4: evaluation at the failing input.  `GenerateCommands` iterates a
Go map whose iteration order the runtime randomizes; embedding the two
possible enumeration orders of the same two-group map (a permutation of one
another) yields different command sequences, so two runs on the same resolved
tree are not guaranteed byte-identical. -/
theorem claimC4 :
    [cfgNetworkEntry, cfgSystemEntry].Perm [cfgSystemEntry, cfgNetworkEntry] ∧
    GenerateCommands [cfgNetworkEntry, cfgSystemEntry] ≠
      GenerateCommands [cfgSystemEntry, cfgNetworkEntry] := by
  constructor
  · exact List.Perm.swap cfgSystemEntry cfgNetworkEntry []
  · intro h
    have h1 : GenerateCommands [cfgNetworkEntry, cfgSystemEntry] =
        ["uci set network.wan=interface", "uci set system.system=system"] := rfl
    rw [h1] at h
    have h2 : GenerateCommands [cfgSystemEntry, cfgNetworkEntry] =
        ["uci set system.system=system", "uci set network.wan=interface"] := rfl
    rw [h2] at h
    simp at h

/-- Claim C5, counterexample: a batch of two devices where only the first
lacks the `role` tag.  The condition `device.tag.role == 'router'` makes the
first device's resolution fail with the unknown-variable error, and the
per-device loop (a panic in the Go source) aborts the whole batch — the
second device, which alone resolves fine, is never processed.  The error is
not local to the device being resolved. -/
theorem claimC5_counterexample :
    resolveStatesForDevices sampleONC [sampleDeviceNoTags, sampleDeviceRouter]
        sampleSchema =
      .error (.unknownVariable "device.tag.role") ∧
    GetOpenWrtState sampleONC sampleDeviceRouter sampleSchema =
      .ok { Config := [],
            PackagesToInstall := [{ Name := "sqm-scripts", Version := "" }],
            PackagesToUninstall := [],
            ConfigSectionsToReset := [] } := ⟨rfl, rfl⟩

/-- Claim C5, amended: a comparison whose left-hand-side path is absent from
the fact namespace fails with the unknown-variable error (the Go panic
`Invalid conditional parameter`), never a silent false: for every fact
context and every plain identifier not bound in `buildLHSMapping`, evaluating
`<key> == 'x'` yields exactly that error. -/
theorem claimC5 (ctx : ConditionContext) (key : String)
    (hplain : plainIdent key = true)
    (habsent : goLookup key (buildLHSMapping ctx) = none) :
    Evaluate (some (key ++ " == 'x'")) ctx =
      .error (.unknownVariable key) := by
  have hdata : (key ++ " == 'x'").data =
      key.data ++ ' ' :: '=' :: '=' :: [' ', '\'', 'x', '\''] := rfl
  have hne : key.data ≠ [] := by
    unfold plainIdent at hplain
    intro hcontra
    simp [hcontra] at hplain
  have hall : ∀ c ∈ key.data, plainIdentChar c = true := by
    unfold plainIdent at hplain
    intro c hc
    have := (Bool.and_eq_true _ _).mp hplain
    exact List.all_eq_true.mp this.2 c hc
  obtain ⟨c₀, k₀, hk⟩ : ∃ c₀ k₀, key.data = c₀ :: k₀ := by
    cases hcase : key.data with
    | nil => exact absurd hcase hne
    | cons a l => exact ⟨a, l, rfl⟩
  have hc₀ : plainIdentChar c₀ = true := hall c₀ (by rw [hk]; exact List.mem_cons_self _ _)
  -- the condition is not the wildcard
  have hstar : ¬(key ++ " == 'x'" = "*") := by
    intro hcontra
    have : (key ++ " == 'x'").data = "*".data := by rw [hcontra]
    rw [hdata] at this
    have hlen := congrArg List.length this
    simp [List.length_append] at hlen
  -- no OR and no AND operator characters anywhere in the condition
  have hnopipe : ∀ c ∈ (key ++ " == 'x'").data, c ≠ '|' := by
    rw [hdata]
    intro c hc
    rcases List.mem_append.mp hc with hm | hm
    · exact (plainIdentChar_props (hall c hm)).2.1
    · fin_cases hm <;> decide
  have hnoamp : ∀ c ∈ (key ++ " == 'x'").data, c ≠ '&' := by
    rw [hdata]
    intro c hc
    rcases List.mem_append.mp hc with hm | hm
    · exact (plainIdentChar_props (hall c hm)).2.2
    · fin_cases hm <;> decide
  have hcondne : (key ++ " == 'x'").data ≠ [] := by
    rw [hdata]; simp
  -- the whole condition survives the OR and AND splits as a single chunk
  have hsplitor : splitByOperator2 '|' '|' (key ++ " == 'x'").data =
      [(key ++ " == 'x'").data] := by
    unfold splitByOperator2
    rw [splitByOpAux_no_op hnopipe]
    simp [hcondne]
  have hsplitand : splitByOperator2 '&' '&' (key ++ " == 'x'").data =
      [(key ++ " == 'x'").data] := by
    unfold splitByOperator2
    rw [splitByOpAux_no_op hnoamp]
    simp [hcondne]
  -- trimming the condition does nothing
  have htrim : trimChars (key ++ " == 'x'").data = (key ++ " == 'x'").data := by
    refine trimChars_eq_self (c := c₀) (d := '\'') ?_ ?_ ?_ ?_
    · rw [hdata, hk]; rfl
    · exact (plainIdentChar_props hc₀).1
    · rw [hdata]
      rw [show key.data ++ ' ' :: '=' :: '=' :: [' ', '\'', 'x', '\''] =
          (key.data ++ [' ', '=', '=', ' ', '\'', 'x']) ++ ['\''] by simp]
      exact List.getLast?_concat _
    · rfl
  -- the comparison splits at the `==`
  have hsplitcmp : splitComparison2 '=' '=' (key ++ " == 'x'").data =
      some (key.data ++ [' '], [' ', '\'', 'x', '\'']) := by
    unfold splitComparison2
    rw [hdata, splitComparisonAux_ident hall]
    simp
  -- the trimmed left-hand side is exactly the key
  have hlhs : trimChars (key.data ++ [' ']) = key.data :=
    trimChars_append_space (fun c hc => (plainIdentChar_props (hall c hc)).1)
  -- evaluate the single comparison: unknown variable
  have hcmp : evaluateComparison (trimChars (key ++ " == 'x'").data)
      (buildLHSMapping ctx) = .error (.unknownVariable key) := by
    rw [htrim]
    unfold evaluateComparison
    dsimp only
    rw [htrim, hsplitcmp]
    dsimp only
    rw [hlhs]
    rw [show String.mk key.data = key from rfl]
    rw [habsent]
  -- assemble through the AND and OR loops
  unfold Evaluate
  dsimp only
  rw [if_neg hstar]
  unfold evaluateExpression
  rw [hsplitor]
  unfold evaluateOrParts
  rw [hsplitand]
  unfold evaluateAndParts
  rw [hcmp]
  rfl

/-- Claim C5, witness: the amended theorem at the unbound path
`device.unknown` against the sample context. -/
theorem claimC5_witness :
    plainIdent "device.unknown" = true ∧
    goLookup "device.unknown" (buildLHSMapping sampleCtx) = none ∧
    Evaluate (some ("device.unknown" ++ " == 'x'")) sampleCtx =
      .error (.unknownVariable "device.unknown") :=
  ⟨by decide, rfl, claimC5 sampleCtx "device.unknown" (by decide) rfl⟩


/-- Claim C6, counterexample: for the token `a@b@c` the parsed pinned version
is `b`, not "everything after the first `@`" (`b@c`) — `strings.Split` cuts
at every `@` and the code takes `parts[1]` only. -/
theorem claimC6_counterexample :
    resolvePackages [⟨none, ["a@b@c"]⟩] sampleCtx =
      .ok ([{ Name := "a", Version := "b" }], []) ∧ ("b" : String) ≠ "b@c" :=
  ⟨rfl, by decide⟩

/-- Claim C6, amended: a token starting with `-` is an uninstall directive
named by the remainder, any other token is an install directive split at
EVERY `@`: the name is the segment before the first `@` and the version the
segment between the first and second `@` (text after a second `@` is
discarded; no `@` means an empty version). -/
theorem claimC6 (a b c : List Char) (s : String) (toks : List String)
    (ha : ∀ d ∈ a, d ≠ '@') (hb : ∀ d ∈ b, d ≠ '@') :
    (s.data.head? = some '-' → s ∈ toks →
      String.mk (s.data.drop 1) ∈ (splitDirectives toks).2) ∧
    (¬(s.data.head? = some '-') → s ∈ toks →
      parsePackageToken s ∈ (splitDirectives toks).1) ∧
    parsePackageToken (String.mk (a ++ '@' :: (b ++ '@' :: c))) =
      { Name := String.mk a, Version := String.mk b } ∧
    parsePackageToken (String.mk (a ++ '@' :: b)) =
      { Name := String.mk a, Version := String.mk b } ∧
    parsePackageToken (String.mk a) = { Name := String.mk a, Version := "" } := by
  refine ⟨fun h1 h2 => mem_splitDirectives_uninstall h2 h1,
          fun h1 h2 => mem_splitDirectives_install h2 h1, ?_, ?_, ?_⟩
  · unfold parsePackageToken
    rw [show (String.mk (a ++ '@' :: (b ++ '@' :: c))).data =
        a ++ '@' :: (b ++ '@' :: c) from rfl]
    rw [splitOnChar_append_sep ha, splitOnChar_append_sep hb]
    simp
  · unfold parsePackageToken
    rw [show (String.mk (a ++ '@' :: b)).data = a ++ '@' :: b from rfl]
    rw [splitOnChar_append_sep ha, splitOnChar_no_sep hb]
    simp
  · unfold parsePackageToken
    rw [show (String.mk a).data = a from rfl]
    rw [splitOnChar_no_sep ha]
    simp

/-- Claim C6, witness: the amended theorem evaluated on `name@v1@v2` (version
`v1`) and on a plain token. -/
theorem claimC6_witness :
    parsePackageToken (String.mk ("name".data ++ '@' :: ("v1".data ++ '@' :: "v2".data))) =
      { Name := "name", Version := "v1" } ∧
    parsePackageToken "plain" = { Name := "plain", Version := "" } :=
  ⟨(claimC6 "name".data "v1".data "v2".data "t" []
      (by decide) (by decide)).2.2.1,
   (claimC6 "plain".data "v1".data "v2".data "t" []
      (by decide) (by decide)).2.2.2.2⟩


/-- Claim C7: overrides are merged in list order with field-by-field
overwrite — for a node with two overrides whose conditions both evaluate
true and whose override objects both bind the field `x`, the resolved node
maps `x` to the later override's value. -/
theorem claimC7 (ctx : ConditionContext) (base m₁ m₂ : List (String × GoVal))
    (c₁ c₂ x : String) (v₂ : GoVal)
    (hif : goLookup ".if" base = none)
    (hov : goLookup ".overrides" base = none)
    (hc₁ : Evaluate (some c₁) ctx = .ok true)
    (hc₂ : Evaluate (some c₂) ctx = .ok true)
    (hx : goLookup x m₂.reverse = some v₂) :
    ∃ r, applyObject
        (base ++ [(".overrides", GoVal.arr
          [GoVal.obj [(".if", GoVal.str c₁), ("override", GoVal.obj m₁)],
           GoVal.obj [(".if", GoVal.str c₂), ("override", GoVal.obj m₂)]])]) ctx =
      .ok r ∧ goLookup x r = some v₂ := by
  have hifobj : goLookup ".if"
      (base ++ [(".overrides", GoVal.arr
        [GoVal.obj [(".if", GoVal.str c₁), ("override", GoVal.obj m₁)],
         GoVal.obj [(".if", GoVal.str c₂), ("override", GoVal.obj m₂)]])]) = none := by
    rw [goLookup_append_right _ hif]
    simp [goLookup]
  have hovobj : goLookup ".overrides"
      (base ++ [(".overrides", GoVal.arr
        [GoVal.obj [(".if", GoVal.str c₁), ("override", GoVal.obj m₁)],
         GoVal.obj [(".if", GoVal.str c₂), ("override", GoVal.obj m₂)]])]) =
      some (GoVal.arr
        [GoVal.obj [(".if", GoVal.str c₁), ("override", GoVal.obj m₁)],
         GoVal.obj [(".if", GoVal.str c₂), ("override", GoVal.obj m₂)]]) := by
    rw [goLookup_append_right _ hov]
    simp [goLookup]
  unfold applyObject
  rw [hifobj]
  simp only [Evaluate, bind, Except.bind, if_true]
  rw [hovobj]
  dsimp only
  rw [applyOverrides_true_step ctx c₁ m₁ _ _ hc₁]
  rw [applyOverrides_true_step ctx c₂ m₂ _ _ hc₂]
  refine ⟨_, rfl, ?_⟩
  rw [goLookup_foldInsert, hx]
  rfl

/-- Claim C7, witness: the theorem on a concrete node whose two always-true
overrides set `x` to `v1` and then `v2`; the result holds `v2`. -/
theorem claimC7_witness :
    goLookup ".if" [("proto", GoVal.str "static")] = none ∧
    Evaluate (some "*") sampleCtx = .ok true ∧
    ∃ r, applyObject
        ([("proto", GoVal.str "static")] ++ [(".overrides", GoVal.arr
          [GoVal.obj [(".if", GoVal.str "*"), ("override", GoVal.obj [("x", GoVal.str "v1")])],
           GoVal.obj [(".if", GoVal.str "*"), ("override", GoVal.obj [("x", GoVal.str "v2")])]])])
        sampleCtx =
      .ok r ∧ goLookup "x" r = some (GoVal.str "v2") :=
  ⟨rfl, rfl,
   claimC7 sampleCtx [("proto", GoVal.str "static")]
     [("x", GoVal.str "v1")] [("x", GoVal.str "v2")] "*" "*" "x" (GoVal.str "v2")
     rfl rfl rfl rfl rfl⟩

/-- Claim C8: for every schema group, the reset scope holds exactly the
section types not exempted as `<group>.<section>` — none at all when
`<group>.*` is exempted, regardless of individual exemptions — and a group
whose remaining section list would be empty is omitted (never present with an
empty list). -/
theorem claimC8 (schema : List (String × List String)) (notReset : List String)
    (g : String) (secs : List String) (s : String)
    (hnd : (schema.map Prod.fst).Nodup)
    (hg : goLookup g schema = some secs) :
    (s ∈ (goLookup g (getConfigSectionsToReset schema notReset)).getD [] ↔
      (notReset.contains (g ++ ".*") = false ∧ s ∈ secs ∧
        notReset.contains (g ++ "." ++ s) = false)) ∧
    goLookup g (getConfigSectionsToReset schema notReset) ≠ some [] := by
  induction schema with
  | nil => simp [goLookup] at hg
  | cons e rest ih =>
    obtain ⟨e1, e2⟩ := e
    have hnd' : (rest.map Prod.fst).Nodup := (List.nodup_cons.mp hnd).2
    by_cases heg : e1 = g
    · -- the head entry is the group in question
      subst heg
      have hsecs : e2 = secs := by
        rw [goLookup, if_pos rfl] at hg
        simpa using hg
      subst hsecs
      have hnot : ∀ d ∈ rest, d.1 ≠ e1 := by
        intro d hd hcontra
        have : e1 ∈ rest.map Prod.fst := by
          rw [← hcontra]; exact List.mem_map_of_mem Prod.fst hd
        exact (List.nodup_cons.mp hnd).1 this
      have hnone := getConfigSectionsToReset_lookup_none rest notReset hnot
      unfold getConfigSectionsToReset
      by_cases hskip : notReset.contains (e1 ++ ".*")
      · rw [if_pos hskip, hnone]
        refine ⟨?_, by simp⟩
        simp only [Option.getD_none, List.not_mem_nil, false_iff]
        rintro ⟨hfalse, -, -⟩
        rw [hskip] at hfalse
        exact Bool.noConfusion hfalse
      · rw [if_neg hskip]
        have hskipf : notReset.contains (e1 ++ ".*") = false :=
          Bool.of_not_eq_true hskip
        by_cases hlen : (e2.filter
            (fun t => !(notReset.contains (e1 ++ "." ++ t)))).length > 0
        · rw [if_pos hlen]
          rw [show goLookup e1 ((e1, e2.filter
              (fun t => !(notReset.contains (e1 ++ "." ++ t)))) ::
              getConfigSectionsToReset rest notReset) =
            some (e2.filter (fun t => !(notReset.contains (e1 ++ "." ++ t)))) by
            rw [goLookup, if_pos rfl]]
          refine ⟨?_, ?_⟩
          · simp only [Option.getD_some]
            rw [List.mem_filter]
            constructor
            · rintro ⟨hmem, hpass⟩
              exact ⟨hskipf, hmem, by simpa using hpass⟩
            · rintro ⟨-, hmem, hpass⟩
              exact ⟨hmem, by simpa using hpass⟩
          · intro hcontra
            injection hcontra with h
            rw [h] at hlen
            simp at hlen
        · rw [if_neg hlen, hnone]
          have hempty : e2.filter
              (fun t => !(notReset.contains (e1 ++ "." ++ t))) = [] := by
            cases hcase : e2.filter
                (fun t => !(notReset.contains (e1 ++ "." ++ t))) with
            | nil => rfl
            | cons y ys => rw [hcase] at hlen; simp at hlen
          refine ⟨?_, by simp⟩
          simp only [Option.getD_none, List.not_mem_nil, false_iff]
          rintro ⟨-, hmem, hpass⟩
          have : s ∈ e2.filter
              (fun t => !(notReset.contains (e1 ++ "." ++ t))) := by
            rw [List.mem_filter]
            exact ⟨hmem, by simpa using hpass⟩
          rw [hempty] at this
          simp at this
    · -- the head entry is a different group
      have hg2 : goLookup g rest = some secs := by
        rw [goLookup, if_neg heg] at hg
        exact hg
      have hmain := ih hnd' hg2
      unfold getConfigSectionsToReset
      by_cases hskip : notReset.contains (e1 ++ ".*")
      · rw [if_pos hskip]; exact hmain
      · rw [if_neg hskip]
        by_cases hlen : (e2.filter
            (fun t => !(notReset.contains (e1 ++ "." ++ t)))).length > 0
        · rw [if_pos hlen]
          rw [show goLookup g ((e1, e2.filter
              (fun t => !(notReset.contains (e1 ++ "." ++ t)))) ::
              getConfigSectionsToReset rest notReset) =
            goLookup g (getConfigSectionsToReset rest notReset) by
            rw [goLookup, if_neg heg]]
          exact hmain
        · rw [if_neg hlen]; exact hmain

/-- Claim C8, witness: the theorem on a two-group schema where `firewall` is
fully exempted via `firewall.*` even though `firewall.zone` is also listed. -/
theorem claimC8_witness :
    ("rule" ∈ (goLookup "firewall"
        (getConfigSectionsToReset
          [("firewall", ["zone", "rule"]), ("network", ["interface"])]
          ["firewall.*", "firewall.zone"])).getD [] ↔
      (["firewall.*", "firewall.zone"].contains ("firewall" ++ ".*") = false ∧
        "rule" ∈ ["zone", "rule"] ∧
        ["firewall.*", "firewall.zone"].contains ("firewall" ++ "." ++ "rule") = false)) ∧
    goLookup "firewall"
        (getConfigSectionsToReset
          [("firewall", ["zone", "rule"]), ("network", ["interface"])]
          ["firewall.*", "firewall.zone"]) ≠ some [] :=
  claimC8 [("firewall", ["zone", "rule"]), ("network", ["interface"])]
    ["firewall.*", "firewall.zone"] "firewall" ["zone", "rule"] "rule"
    (by decide) rfl


/-- Claim C9, counterexample: a document tree whose only top-level group is
`extra` resolves to the empty tree — the `extra` contents do not survive into
the resolved output, refuting the pass-through part of the claim. -/
theorem claimC9_counterexample :
    resolveConfig [("extra", GoVal.obj [("passthrough", GoVal.str "kept")])]
        sampleCtx = .ok [] ∧
    (Except.ok ([] : List (String × GoVal)) : Except EvalErr (List (String × GoVal))) ≠
      .ok [("extra", GoVal.obj [("passthrough", GoVal.str "kept")])] := by
  refine ⟨rfl, ?_⟩
  intro h
  injection h with h1
  exact List.noConfusion h1

/-- Claim C9, amended: the reserved key `extra` is excluded from conditional
logic — the resolver skips it before evaluating anything — but it does NOT
pass through: the resolved tree never contains an `extra` key (the group
survives only in the parsed `ConfigConfig.Extra` field, which the
`json:"-"` tag already keeps out of the marshaled tree that resolution
consumes). -/
theorem claimC9 (v : GoVal) (rest cfg : List (String × GoVal))
    (ctx : ConditionContext) (r : List (String × GoVal)) :
    resolveConfig (("extra", v) :: rest) ctx = resolveConfig rest ctx ∧
    (resolveConfig cfg ctx = .ok r → goLookup "extra" r = none) := by
  constructor
  · conv_lhs => rw [resolveConfig.eq_def]
    dsimp only
    rw [if_pos rfl]
  · induction cfg generalizing r with
    | nil =>
      intro hok
      unfold resolveConfig at hok
      injection hok with h
      rw [← h]
      rfl
    | cons e tail ih =>
      intro hok
      obtain ⟨k, val⟩ := e
      rw [resolveConfig.eq_def] at hok
      dsimp only at hok
      by_cases hk : k = "extra"
      · rw [if_pos hk] at hok
        exact ih _ hok
      · rw [if_neg hk] at hok
        cases val with
        | obj configObj =>
          dsimp only at hok
          cases happ : applyObject configObj ctx with
          | error e => rw [happ] at hok; simp [bind, Except.bind] at hok
          | ok applied =>
            rw [happ] at hok
            simp only [bind, Except.bind] at hok
            by_cases hlen : applied.length = 0
            · rw [if_pos hlen] at hok
              exact ih _ hok
            · rw [if_neg hlen] at hok
              cases hsec : resolveSections ctx applied with
              | error e => rw [hsec] at hok; simp [bind, Except.bind] at hok
              | ok sections =>
                rw [hsec] at hok
                cases htail : resolveConfig tail ctx with
                | error e => rw [htail] at hok; simp [bind, Except.bind] at hok
                | ok tl =>
                  rw [htail] at hok
                  simp only [bind, Except.bind, pure, Except.pure,
                    Except.ok.injEq] at hok
                  have htl : goLookup "extra" tl = none := ih _ htail
                  rw [← hok]
                  by_cases hpos : sections.length > 0
                  · rw [if_pos hpos]
                    rw [goLookup, if_neg hk]
                    exact htl
                  · rw [if_neg hpos]
                    exact htl
        | null => dsimp only at hok; exact ih _ hok
        | bool b => dsimp only at hok; exact ih _ hok
        | num n => dsimp only at hok; exact ih _ hok
        | str s => dsimp only at hok; exact ih _ hok
        | arr l => dsimp only at hok; exact ih _ hok

/-- Claim C9, witness: the amended theorem applied to a concrete tree holding
only an `extra` group. -/
theorem claimC9_witness :
    resolveConfig [("extra", GoVal.obj [("passthrough", GoVal.str "kept")])]
        sampleCtx =
      resolveConfig [] sampleCtx ∧
    goLookup "extra" ([] : List (String × GoVal)) = none :=
  ⟨(claimC9 (GoVal.obj [("passthrough", GoVal.str "kept")]) [] [] sampleCtx []).1,
   (claimC9 (GoVal.obj [("passthrough", GoVal.str "kept")]) [] [] sampleCtx []).2 rfl⟩

/-- Claim C10: no command emitted by `GetPackageCommands` depends on an
install directive's pinned version — the output is invariant under any change
of the versions as the already-installed filter compares names only and the
install command lists names only. -/
theorem claimC10 (install₁ install₂ : List Package) (uninstall : List String)
    (installed : Option (List InstalledPackage))
    (h : install₁.map Package.Name = install₂.map Package.Name) :
    GetPackageCommands install₁ uninstall installed =
      GetPackageCommands install₂ uninstall installed := by
  unfold GetPackageCommands
  cases installed with
  | none =>
    dsimp only
    have hlen : install₁.length = install₂.length := by
      have := congrArg List.length h
      simpa using this
    rw [hlen]
    by_cases hpos : install₂.length > 0
    · rw [if_pos hpos, if_pos hpos]
      have hjoin : joinSpace (install₁.map Package.Name) =
          joinSpace (install₂.map Package.Name) := by rw [h]
      rw [hjoin]
    · rw [if_neg hpos, if_neg hpos]
  | some snapshot =>
    dsimp only
    have hf := filter_names_congr
      (fun nm => !(snapshot.any (fun i => i.Name = nm))) install₁ install₂ h
    have hlen : (install₁.filter
        (fun pkg => !(snapshot.any (fun i => i.Name = pkg.Name)))).length =
      (install₂.filter
        (fun pkg => !(snapshot.any (fun i => i.Name = pkg.Name)))).length := by
      have := congrArg List.length hf
      simpa using this
    rw [hlen]
    by_cases hpos : (install₂.filter
        (fun pkg => !(snapshot.any (fun i => i.Name = pkg.Name)))).length > 0
    · rw [if_pos hpos, if_pos hpos, hf]
    · rw [if_neg hpos, if_neg hpos]

/-- Claim C10, witness: the theorem on two install lists differing only in
the pinned version, against a snapshot; the command lists coincide. -/
theorem claimC10_witness :
    ([{ Name := "pkgA", Version := "1.0" }] : List Package).map Package.Name =
      ([{ Name := "pkgA", Version := "2.0" }] : List Package).map Package.Name ∧
    GetPackageCommands [{ Name := "pkgA", Version := "1.0" }] ["old"]
        (some [{ Name := "old", Version := "1" }]) =
      GetPackageCommands [{ Name := "pkgA", Version := "2.0" }] ["old"]
        (some [{ Name := "old", Version := "1" }]) :=
  ⟨rfl,
   claimC10 [{ Name := "pkgA", Version := "1.0" }]
     [{ Name := "pkgA", Version := "2.0" }] ["old"]
     (some [{ Name := "old", Version := "1" }]) rfl⟩

